import Mathlib

/-!
Verification development for the yomitan-node dictionary storage engine.

The embedding models the drizzle/SQLite-backed `DictionaryDatabase`
(src/unnamed/part_006, with the schema of src/unnamed/part_004 and the
`SQLiteDatabase` connection manager of src/unnamed/part_004).

Modelling conventions:
* JS strings are lists of code points (`Str`); the JS spread `[...str]`
  used by `_reverseString` iterates code points, so string reversal is
  `List.reverse`.
* SQL `TEXT` columns that are nullable are `Option Str`; a JS `undefined`
  passed to an insert stores SQL `NULL`, i.e. `none`.
* The SQL `LIKE` operator is modelled by `likeMatch`, including its
  `%`/`_` wildcards and SQLite's default ASCII-case-insensitive collation
  for `LIKE`.
* Modelled from the spec: `parseJson` (ext/js/core/json.js, not under
  src/) and `JSON.stringify` round-trip serialized payloads without loss
  (spec section 3 invariant on serialized payload fields), so serialized
  columns (glossary, meanings, stats, data, counts) are modelled as
  holding the decoded value directly.
* The autoincrement `id` column is modelled for the `terms` store (its
  value is surfaced in `TermEntry.id`); the other stores' ids are never
  read by any modelled operation and are omitted.
* `importDate` in `getDictionaryInfo` is `Date.now()` (real time) and is
  not modelled.
-/

namespace Yomitan

/-- A JS string, as its list of code points. -/
abbrev Str := List Char

/-- Model of `_reverseString` from part_006: `[...str].reverse().join('')`,
a code-point-wise reversal. -/
def reverseString (s : Str) : Str := s.reverse

/-- ASCII lower-casing of one character, as used by SQLite's default
`LIKE` collation (case-insensitive for ASCII only). -/
def lowerAscii (c : Char) : Char :=
  if 'A' ≤ c ∧ c ≤ 'Z' then Char.ofNat (c.toNat + 32) else c

/-- ASCII case folding of a string. -/
def foldCase (s : Str) : Str := s.map lowerAscii

/-- Backtracking for a `%` wildcard: try to match the rest of the
pattern (`f`) against every suffix of the string. -/
def likeAfterStar (f : Str → Bool) : Str → Bool
  | [] => f []
  | c :: s => f (c :: s) || likeAfterStar f s

/-- SQLite `LIKE` matching: `%` matches any sequence, `_` any single
character, and ordinary characters compare ASCII-case-insensitively. -/
def likeMatch : Str → Str → Bool
  | [], s => s.isEmpty
  | p :: ps, s =>
    if p = '%' then likeAfterStar (likeMatch ps) s
    else
      match s with
      | [] => false
      | c :: s' =>
        if p = '_' then likeMatch ps s'
        else (lowerAscii p == lowerAscii c) && likeMatch ps s'

/-- Application of `LIKE` to a nullable column: `NULL LIKE pattern` is not true,
so a `none` column never matches. -/
def likeColumn (pattern : Str) (column : Option Str) : Bool :=
  match column with
  | none => false
  | some s => likeMatch pattern s

/-- A string free of the `LIKE` metacharacters `%` and `_`. -/
def wildcardFree (s : Str) : Bool :=
  s.all fun c => (c != '%') && (c != '_')

/-- JS `String.prototype.split(' ')`: split on each single space,
keeping empty segments. -/
def splitOnSpaceAux : Str → Str → List Str
  | [], acc => [acc.reverse]
  | c :: rest, acc =>
    if c = ' ' then acc.reverse :: splitOnSpaceAux rest []
    else splitOnSpaceAux rest (c :: acc)

/-- JS `s.split(' ')`. -/
def splitOnSpace (s : Str) : List Str := splitOnSpaceAux s []

/-- The row-decoding idiom `x ? x.split(' ') : []` on a nullable column:
`null` and the empty string are falsy and yield the empty list. -/
def splitTags (column : Option Str) : List Str :=
  match column with
  | none => []
  | some s => if s = [] then [] else splitOnSpace s

/-- The row-decoding idiom `x ? x.split(' ') : []` on a non-null column. -/
def splitTagsStr (s : Str) : List Str :=
  if s = [] then [] else splitOnSpace s

/-- JS `a || b` on two nullable strings (`item.definitionTags || item.tags`):
`null`, `undefined` and the empty string are falsy. -/
def jsOrStr : Option Str → Option Str → Option Str
  | some s, b => if s = [] then b else some s
  | none, b => b

/-! ## Data model (schema of part_004, rows as persisted by part_006) -/

/-- An abstract decoded JSON payload (see the serialization convention in
the file header). -/
abbrev JsonData := List Str

/-- A decoded glossary: a list of definition entries, order significant. -/
abbrev Glossary := List JsonData

/-- A decoded dictionary `counts` aggregate map. -/
abbrev CountsMap := List (Str × Nat)

/-- A decoded kanji `stats` string map. -/
abbrev StatsMap := List (Str × Str)

/-- A row of the `dictionaries` table. -/
structure DictionaryRow where
  title : Str
  version : Int
  revision : Option Str
  sequenced : Option Int
  author : Option Str
  url : Option Str
  description : Option Str
  attribution : Option Str
  frequencyMode : Option Str
  prefixWildcardsSupported : Option Int
  styles : Option Str
  counts : Option CountsMap
  yomitanVersion : Option Str
deriving DecidableEq

/-- A row of the `terms` table. -/
structure TermRow where
  id : Nat
  dictionary : Str
  expression : Str
  reading : Str
  expressionReverse : Option Str
  readingReverse : Option Str
  definitionTags : Option Str
  rules : Str
  score : Int
  glossary : Glossary
  sequence : Option Int
  termTags : Option Str
deriving DecidableEq

/-- A row of the `term_meta` table. -/
structure TermMetaRow where
  dictionary : Str
  term : Str
  mode : Str
  data : JsonData
deriving DecidableEq

/-- A row of the `kanji` table. -/
structure KanjiRow where
  dictionary : Str
  character : Str
  onyomi : Str
  kunyomi : Str
  tags : Str
  meanings : List Str
  stats : Option StatsMap
deriving DecidableEq

/-- A row of the `kanji_meta` table. -/
structure KanjiMetaRow where
  dictionary : Str
  character : Str
  mode : Str
  data : JsonData
deriving DecidableEq

/-- A row of the `tag_meta` table. -/
structure TagMetaRow where
  dictionary : Str
  name : Str
  category : Str
  orderValue : Int
  notes : Str
  score : Int
deriving DecidableEq

/-- A row of the `media` table. -/
structure MediaRow where
  dictionary : Str
  path : Str
  mediaType : Str
  width : Int
  height : Int
  content : List Nat
deriving DecidableEq

/-- The persisted database: one list of rows per store, in insertion
order. -/
structure Db where
  dictionaries : List DictionaryRow
  terms : List TermRow
  termMeta : List TermMetaRow
  kanji : List KanjiRow
  kanjiMeta : List KanjiMetaRow
  tagMeta : List TagMetaRow
  media : List MediaRow
deriving DecidableEq

/-- A freshly created (or purged) database: every table empty. -/
def emptyDb : Db := ⟨[], [], [], [], [], [], []⟩

/-! ## `bulkAdd` input item types (part_006 / dictionary-database types) -/

/-- A dictionary `Summary` as consumed by `bulkAdd('dictionaries', ...)`. -/
structure Summary where
  title : Str
  version : Int
  revision : Str
  sequenced : Bool
  author : Option Str
  url : Option Str
  description : Option Str
  attribution : Option Str
  frequencyMode : Option Str
  prefixWildcardsSupported : Bool
  styles : Str
  counts : Option CountsMap
  yomitanVersion : Str
deriving DecidableEq

/-- A `DatabaseTermEntry` item for `bulkAdd('terms', ...)`.  The input may
carry its own `expressionReverse`/`readingReverse`; the insert path
recomputes them. -/
structure DatabaseTermEntry where
  expression : Str
  reading : Str
  expressionReverse : Option Str
  readingReverse : Option Str
  definitionTags : Option Str
  tags : Option Str
  rules : Str
  score : Int
  glossary : Glossary
  sequence : Option Int
  termTags : Option Str
  dictionary : Str
deriving DecidableEq

/-- A `DatabaseTermMeta` item for `bulkAdd('termMeta', ...)`. -/
structure DatabaseTermMeta where
  dictionary : Str
  expression : Str
  mode : Str
  data : JsonData
deriving DecidableEq

/-- A `DatabaseKanjiEntry` item for `bulkAdd('kanji', ...)`. -/
structure DatabaseKanjiEntry where
  character : Str
  onyomi : Str
  kunyomi : Str
  tags : Str
  meanings : List Str
  dictionary : Str
  stats : Option StatsMap
deriving DecidableEq

/-- A `DatabaseKanjiMeta` item for `bulkAdd('kanjiMeta', ...)`. -/
structure DatabaseKanjiMeta where
  dictionary : Str
  character : Str
  mode : Str
  data : JsonData
deriving DecidableEq

/-- A `Tag` item for `bulkAdd('tagMeta', ...)`. -/
structure TagItem where
  name : Str
  category : Str
  order : Int
  notes : Str
  score : Int
  dictionary : Str
deriving DecidableEq

/-- A media item for `bulkAdd('media', ...)`. -/
structure MediaItem where
  dictionary : Str
  path : Str
  mediaType : Str
  width : Int
  height : Int
  content : List Nat
deriving DecidableEq

/-! ## `bulkAdd` (part_006 lines 538-679) -/

/-- The per-store row encodings of `bulkAdd`. -/
def encodeDictionaryRow (item : Summary) : DictionaryRow :=
  { title := item.title
    version := item.version
    revision := some item.revision
    sequenced := some (if item.sequenced then 1 else 0)
    author := item.author
    url := item.url
    description := item.description
    attribution := item.attribution
    frequencyMode := item.frequencyMode
    prefixWildcardsSupported := some (if item.prefixWildcardsSupported then 1 else 0)
    styles := some item.styles
    counts := item.counts
    -- part_006's insert lists no yomitanVersion value, so the column
    -- is left NULL (part_003 line 646 does store it).
    yomitanVersion := none }

/-- Row encoding of `bulkAdd('terms', ...)`: the reverse columns are
recomputed from the item's `expression`/`reading`; the JS truthiness
guard `if (item.expression)` leaves them `undefined` (NULL) for the
empty string.  `id` is the autoincrement key. -/
def encodeTermRow (id : Nat) (item : DatabaseTermEntry) : TermRow :=
  { id := id
    dictionary := item.dictionary
    expression := item.expression
    reading := item.reading
    expressionReverse :=
      if item.expression = [] then none else some (reverseString item.expression)
    readingReverse :=
      if item.reading = [] then none else some (reverseString item.reading)
    definitionTags := jsOrStr item.definitionTags item.tags
    rules := item.rules
    score := item.score
    glossary := item.glossary
    sequence := item.sequence
    termTags := item.termTags }

/-- Row encoding of `bulkAdd('termMeta', ...)` (part_006 stores
`item.expression` into the `term` column). -/
def encodeTermMetaRow (item : DatabaseTermMeta) : TermMetaRow :=
  { dictionary := item.dictionary
    term := item.expression
    mode := item.mode
    data := item.data }

/-- Row encoding of `bulkAdd('kanji', ...)`. -/
def encodeKanjiRow (item : DatabaseKanjiEntry) : KanjiRow :=
  { dictionary := item.dictionary
    character := item.character
    onyomi := item.onyomi
    kunyomi := item.kunyomi
    tags := item.tags
    meanings := item.meanings
    stats := item.stats }

/-- Row encoding of `bulkAdd('kanjiMeta', ...)`. -/
def encodeKanjiMetaRow (item : DatabaseKanjiMeta) : KanjiMetaRow :=
  { dictionary := item.dictionary
    character := item.character
    mode := item.mode
    data := item.data }

/-- Row encoding of `bulkAdd('tagMeta', ...)` (`order` maps to the
`order_value` column). -/
def encodeTagMetaRow (item : TagItem) : TagMetaRow :=
  { dictionary := item.dictionary
    name := item.name
    category := item.category
    orderValue := item.order
    notes := item.notes
    score := item.score }

/-- Row encoding of `bulkAdd('media', ...)`. -/
def encodeMediaRow (item : MediaItem) : MediaRow :=
  { dictionary := item.dictionary
    path := item.path
    mediaType := item.mediaType
    width := item.width
    height := item.height
    content := item.content }

/-- The typed union of `bulkAdd` item lists; the constructor plays the
role of the `objectStoreName` argument. -/
inductive StoreItems
  | dictionaries (l : List Summary)
  | terms (l : List DatabaseTermEntry)
  | termMeta (l : List DatabaseTermMeta)
  | kanji (l : List DatabaseKanjiEntry)
  | kanjiMeta (l : List DatabaseKanjiMeta)
  | tagMeta (l : List TagItem)
  | media (l : List MediaItem)
deriving DecidableEq

/-- Length (`items.length`) of a `bulkAdd` item list. -/
def StoreItems.size : StoreItems → Nat
  | .dictionaries l => l.length
  | .terms l => l.length
  | .termMeta l => l.length
  | .kanji l => l.length
  | .kanjiMeta l => l.length
  | .tagMeta l => l.length
  | .media l => l.length

/-- Model of `items.slice(start, Math.min(start + count, items.length))`,
the sub-slice inserted by `bulkAdd` (computed after the guard, so
`count` is positive here; a `start` past the end yields `[]`). -/
def sliceItems (items : List α) (start : Nat) (count : Int) : List α :=
  (items.take (min (start + count.toNat) items.length)).drop start

/-- Appends encoded term rows, assigning consecutive autoincrement ids
starting from `base`. -/
def appendTermRows (base : Nat) (items : List DatabaseTermEntry) : List TermRow :=
  items.enum.map fun p => encodeTermRow (base + p.1) p.2

/-- Model of `bulkAdd(objectStoreName, items, start, count)` (part_006 lines
538-679): no-op when `items` is empty or `count <= 0`; otherwise encodes
and appends the sub-slice, in order, to the named store. -/
def bulkAdd (st : Db) (items : StoreItems) (start : Nat) (count : Int) : Db :=
  if items.size = 0 ∨ count ≤ 0 then st
  else
    match items with
    | .dictionaries l =>
      { st with dictionaries :=
          st.dictionaries ++ (sliceItems l start count).map encodeDictionaryRow }
    | .terms l =>
      { st with terms :=
          st.terms ++ appendTermRows st.terms.length (sliceItems l start count) }
    | .termMeta l =>
      { st with termMeta :=
          st.termMeta ++ (sliceItems l start count).map encodeTermMetaRow }
    | .kanji l =>
      { st with kanji :=
          st.kanji ++ (sliceItems l start count).map encodeKanjiRow }
    | .kanjiMeta l =>
      { st with kanjiMeta :=
          st.kanjiMeta ++ (sliceItems l start count).map encodeKanjiMetaRow }
    | .tagMeta l =>
      { st with tagMeta :=
          st.tagMeta ++ (sliceItems l start count).map encodeTagMetaRow }
    | .media l =>
      { st with media :=
          st.media ++ (sliceItems l start count).map encodeMediaRow }

/-! ## Lookup operations (part_006 lines 121-411) -/

/-- The four match types of `findTermsBulk` (`MatchType`; the source's
`prefix` is spelled `prefixMatch` here because `prefix` is a Lean
keyword).  The source defaults the argument to `exact`. -/
inductive MatchType
  | exact
  | prefixMatch
  | suffix
  | anywhere
deriving DecidableEq

/-- Source tag (`matchSource`) of a term entry. -/
inductive MatchSource
  | term
  | reading
deriving DecidableEq

/-- A caller-supplied Dictionary-Set, exposing only a membership test. -/
abbrev DictionarySet := Str → Bool

/-- A decoded `TermEntry` result. -/
structure TermEntry where
  index : Nat
  matchType : MatchType
  matchSource : MatchSource
  term : Str
  reading : Str
  definitionTags : List Str
  termTags : List Str
  rules : List Str
  definitions : Glossary
  score : Int
  dictionary : Str
  id : Nat
  sequence : Int
deriving DecidableEq

/-- A decoded `KanjiEntry` result. -/
structure KanjiEntry where
  index : Nat
  character : Str
  onyomi : List Str
  kunyomi : List Str
  tags : List Str
  definitions : List Str
  stats : StatsMap
  dictionary : Str
deriving DecidableEq

/-- A decoded `TermMeta` result. -/
structure TermMetaEntry where
  index : Nat
  term : Str
  mode : Str
  data : JsonData
  dictionary : Str
deriving DecidableEq

/-- A decoded `KanjiMeta` result. -/
structure KanjiMetaEntry where
  index : Nat
  character : Str
  mode : Str
  data : JsonData
  dictionary : Str
deriving DecidableEq

/-- The row selection of one `findTermsBulk` iteration: `exact` uses
`eq` on `expression`; `prefix` uses `LIKE term%` on `expression`;
`suffix` uses `LIKE reverse(term)%` on `expression_reverse`.  The
part_006 `switch` has no `anywhere` arm, so `query` stays `undefined`
and iterating the awaited result throws; this is `none`. -/
def termQuery (st : Db) (mt : MatchType) (term : Str) : Option (List TermRow) :=
  match mt with
  | .exact => some (st.terms.filter fun r => r.expression == term)
  | .prefixMatch => some (st.terms.filter fun r => likeMatch (term ++ ['%']) r.expression)
  | .suffix =>
    some (st.terms.filter fun r =>
      likeColumn (reverseString term ++ ['%']) r.expressionReverse)
  | .anywhere => none

/-- Decoding of one term row into a result entry at input position `i`. -/
def termEntryOfRow (i : Nat) (mt : MatchType) (r : TermRow) : TermEntry :=
  { index := i
    matchType := mt
    matchSource := .term
    term := r.expression
    reading := r.reading
    definitionTags := splitTags r.definitionTags
    termTags := splitTags r.termTags
    rules := splitTagsStr r.rules
    definitions := r.glossary
    score := r.score
    dictionary := r.dictionary
    id := r.id
    sequence := r.sequence.getD 0 }

/-- The indexed loop of `findTermsBulk` over the input list. -/
def findTermsBulkLoop (st : Db) (dictionaries : DictionarySet) (mt : MatchType) :
    Nat → List Str → Option (List TermEntry)
  | _, [] => some []
  | i, term :: rest => do
    let rows ← termQuery st mt term
    let entries :=
      (rows.filter fun r => dictionaries r.dictionary).map (termEntryOfRow i mt)
    let tail ← findTermsBulkLoop st dictionaries mt (i + 1) rest
    pure (entries ++ tail)

/-- Model of `findTermsBulk(termList, dictionaries, matchType)` (part_006 lines
128-190).  Empty input short-circuits to `[]` before any query runs;
`none` models the `TypeError` thrown for the unhandled `anywhere` case. -/
def findTermsBulk (st : Db) (termList : List Str) (dictionaries : DictionarySet)
    (matchType : MatchType) : Option (List TermEntry) :=
  if termList.length = 0 then some []
  else findTermsBulkLoop st dictionaries matchType 0 termList

/-- The indexed loop of `findTermsExactBulk` over term/reading pairs. -/
def findTermsExactBulkLoop (st : Db) (dictionaries : DictionarySet) :
    Nat → List (Str × Str) → List TermEntry
  | _, [] => []
  | i, pair :: rest =>
    let rows := st.terms.filter fun r =>
      r.expression == pair.1 && r.reading == pair.2
    let entries :=
      (rows.filter fun r => dictionaries r.dictionary).map (termEntryOfRow i .exact)
    entries ++ findTermsExactBulkLoop st dictionaries (i + 1) rest

/-- Model of `findTermsExactBulk(termList, dictionaries)` (part_006 lines
198-244): exact match on both expression and reading, `matchType`
always `exact`. -/
def findTermsExactBulk (st : Db) (termList : List (Str × Str))
    (dictionaries : DictionarySet) : List TermEntry :=
  findTermsExactBulkLoop st dictionaries 0 termList

/-- Decoding of one kanji row at input position `i`. -/
def kanjiEntryOfRow (i : Nat) (r : KanjiRow) : KanjiEntry :=
  { index := i
    character := r.character
    onyomi := splitTagsStr r.onyomi
    kunyomi := splitTagsStr r.kunyomi
    tags := splitTagsStr r.tags
    definitions := r.meanings
    stats := r.stats.getD []
    dictionary := r.dictionary }

/-- The indexed loop of `findKanjiBulk`. -/
def findKanjiBulkLoop (st : Db) (dictionaries : DictionarySet) :
    Nat → List Str → List KanjiEntry
  | _, [] => []
  | i, character :: rest =>
    let rows := st.kanji.filter fun r => r.character == character
    let entries :=
      (rows.filter fun r => dictionaries r.dictionary).map (kanjiEntryOfRow i)
    entries ++ findKanjiBulkLoop st dictionaries (i + 1) rest

/-- Model of `findKanjiBulk(kanjiList, dictionaries)` (part_006 lines 252-292). -/
def findKanjiBulk (st : Db) (kanjiList : List Str)
    (dictionaries : DictionarySet) : List KanjiEntry :=
  findKanjiBulkLoop st dictionaries 0 kanjiList

/-- The indexed loop of `findTermMetaBulk`. -/
def findTermMetaBulkLoop (st : Db) (dictionaries : DictionarySet) :
    Nat → List Str → List TermMetaEntry
  | _, [] => []
  | i, term :: rest =>
    let rows := st.termMeta.filter fun r => r.term == term
    let entries :=
      (rows.filter fun r => dictionaries r.dictionary).map fun r =>
        { index := i, term := r.term, mode := r.mode, data := r.data
          dictionary := r.dictionary }
    entries ++ findTermMetaBulkLoop st dictionaries (i + 1) rest

/-- Model of `findTermMetaBulk(termList, dictionaries)` (part_006 lines 300-332). -/
def findTermMetaBulk (st : Db) (termList : List Str)
    (dictionaries : DictionarySet) : List TermMetaEntry :=
  findTermMetaBulkLoop st dictionaries 0 termList

/-- The indexed loop of `findKanjiMetaBulk`. -/
def findKanjiMetaBulkLoop (st : Db) (dictionaries : DictionarySet) :
    Nat → List Str → List KanjiMetaEntry
  | _, [] => []
  | i, character :: rest =>
    let rows := st.kanjiMeta.filter fun r => r.character == character
    let entries :=
      (rows.filter fun r => dictionaries r.dictionary).map fun r =>
        { index := i, character := r.character, mode := r.mode, data := r.data
          dictionary := r.dictionary }
    entries ++ findKanjiMetaBulkLoop st dictionaries (i + 1) rest

/-- Model of `findKanjiMetaBulk(kanjiList, dictionaries)` (part_006 lines 340-372). -/
def findKanjiMetaBulk (st : Db) (kanjiList : List Str)
    (dictionaries : DictionarySet) : List KanjiMetaEntry :=
  findKanjiMetaBulkLoop st dictionaries 0 kanjiList

/-! ## Aggregate / inspection operations (part_006 lines 417-528) -/

/-- The decoded public shape returned by `getDictionaryInfo`
(`importDate`, a fresh `Date.now()`, is not modelled). -/
structure InfoEntry where
  title : Str
  version : Int
  revision : Str
  sequenced : Bool
  author : Option Str
  url : Option Str
  description : Option Str
  attribution : Option Str
  frequencyMode : Option Str
  prefixWildcardsSupported : Bool
  styles : Str
  counts : Option CountsMap
  yomitanVersion : Option Str
deriving DecidableEq

/-- Decoding of one `dictionaries` row (part_006 lines 420-435):
`revision ?? ''`, `Boolean(sequenced)`, `prefixWildcardsSupported === 1`,
`styles || ''`, `counts ? parseJson(counts) : undefined`. -/
def decodeDictionaryRow (r : DictionaryRow) : InfoEntry :=
  { title := r.title
    version := r.version
    revision := r.revision.getD []
    sequenced := r.sequenced.getD 0 != 0
    author := r.author
    url := r.url
    description := r.description
    attribution := r.attribution
    frequencyMode := r.frequencyMode
    prefixWildcardsSupported := r.prefixWildcardsSupported == some 1
    styles := r.styles.getD []
    counts := r.counts
    yomitanVersion := r.yomitanVersion }

/-- Model of `getDictionaryInfo()` (part_006 lines 417-436). -/
def getDictionaryInfo (st : Db) : List InfoEntry :=
  st.dictionaries.map decodeDictionaryRow

/-- One per-dictionary count group over the six non-Dictionary stores
(part_006 always populates exactly these six keys). -/
structure DictionaryCountGroup where
  terms : Nat
  kanji : Nat
  termMeta : Nat
  kanjiMeta : Nat
  tagMeta : Nat
  media : Nat
deriving DecidableEq

/-- The zero-initialized total group (part_006 lines 496-503). -/
def zeroCountGroup : DictionaryCountGroup := ⟨0, 0, 0, 0, 0, 0⟩

/-- The element-wise accumulation `total.x += count.x` over the six
store keys (part_006 lines 504-511). -/
def addCountGroup (a b : DictionaryCountGroup) : DictionaryCountGroup :=
  { terms := a.terms + b.terms
    kanji := a.kanji + b.kanji
    termMeta := a.termMeta + b.termMeta
    kanjiMeta := a.kanjiMeta + b.kanjiMeta
    tagMeta := a.tagMeta + b.tagMeta
    media := a.media + b.media }

/-- Counting query (`SELECT count(*) ... WHERE dictionary = name`) for each of the six
stores (part_006 lines 452-490). -/
def countGroupFor (st : Db) (dictionary : Str) : DictionaryCountGroup :=
  { terms := (st.terms.filter fun r => r.dictionary == dictionary).length
    kanji := (st.kanji.filter fun r => r.dictionary == dictionary).length
    termMeta := (st.termMeta.filter fun r => r.dictionary == dictionary).length
    kanjiMeta := (st.kanjiMeta.filter fun r => r.dictionary == dictionary).length
    tagMeta := (st.tagMeta.filter fun r => r.dictionary == dictionary).length
    media := (st.media.filter fun r => r.dictionary == dictionary).length }

/-- The `{total, counts}` result of `getDictionaryCounts`. -/
structure DictionaryCounts where
  total : Option DictionaryCountGroup
  counts : List DictionaryCountGroup
deriving DecidableEq

/-- Model of `getDictionaryCounts(dictionaryNames, getTotal)` (part_006 lines
444-515). -/
def getDictionaryCounts (st : Db) (dictionaryNames : List Str)
    (getTotal : Bool) : DictionaryCounts :=
  let counts := dictionaryNames.map (countGroupFor st)
  { total := if getTotal then some (counts.foldl addCountGroup zeroCountGroup) else none
    counts := counts }

/-- Model of `dictionaryExists(title)` (part_006 lines 522-528). -/
def dictionaryExists (st : Db) (title : Str) : Bool :=
  (st.dictionaries.filter fun r => r.title == title).length > 0

/-! ## Connection lifecycle (part_004 `SQLiteDatabase`, part_006
`prepare`/`close`/`purge`) -/

/-- The lifecycle error kinds (spec section 7). -/
inductive DbErr
  | alreadyOpen
  | alreadyOpening
  | notOpen
  | cannotPurgeWhileOpening
  | ioFailure
deriving DecidableEq

/-- The observable `SQLiteDatabase` connection state: whether a handle
is held (`_db`/`_client` non-null) and the `_isOpening` flag. -/
structure SqState where
  client : Bool
  isOpening : Bool
deriving DecidableEq

/-- Model of `SQLiteDatabase.open(name)` (part_004 lines 362-387 and 619-635):
guards `AlreadyOpen` and `AlreadyOpening` before touching `_isOpening`;
the body runs inside `try { _isOpening = true; ... } finally
{ _isOpening = false }`, so both the success exit and an I/O failure
(`ioOk = false`, e.g. `fs.mkdir` or opening the store) clear the flag.
Returns the call's outcome and the post state. -/
def sqOpen (st : SqState) (ioOk : Bool) : Except DbErr Unit × SqState :=
  if st.client then (.error .alreadyOpen, st)
  else if st.isOpening then (.error .alreadyOpening, st)
  else if ioOk then (.ok (), { client := true, isOpening := false })
  else (.error .ioFailure, { client := false, isOpening := false })

/-- Model of `SQLiteDatabase.close()`: releases the handle; no-op when closed. -/
def sqClose (st : SqState) : SqState :=
  { st with client := false }

/-- The outcome of `fs.unlink`/`fs.rm` on the backing file. -/
inductive DeleteOutcome
  | deleted
  | notFound
  | failure
deriving DecidableEq

/-- Model of `SQLiteDatabase.deleteDatabase(name)` (part_004 lines 425-433):
`ENOENT` (file absent) is swallowed; any other failure propagates. -/
def deleteDatabase : DeleteOutcome → Except DbErr Unit
  | .deleted => .ok ()
  | .notFound => .ok ()
  | .failure => .error .ioFailure

/-- The `DictionaryDatabase` engine state: the connection state plus the
`_isOpen` readiness flag. -/
structure EngineState where
  sq : SqState
  prepared : Bool
deriving DecidableEq

/-- Model of `DictionaryDatabase.prepare()` (part_006 lines 74-77): opens the
connection, then marks the engine ready. -/
def prepare (st : EngineState) (ioOk : Bool) : Except DbErr Unit × EngineState :=
  match sqOpen st.sq ioOk with
  | (.ok _, sq) => (.ok (), { sq := sq, prepared := true })
  | (.error e, sq) => (.error e, { st with sq := sq })

/-- Model of `DictionaryDatabase.purge()` (part_006 lines 99-119): rejects while
an open is in flight; closes if open; attempts deletion, reporting a
failure only through the boolean result (the `catch` only logs); then
always re-runs `prepare()` and returns whether deletion succeeded. -/
def purge (st : EngineState) (del : DeleteOutcome) (ioOk : Bool) :
    Except DbErr Bool × EngineState :=
  if st.sq.isOpening then (.error .cannotPurgeWhileOpening, st)
  else
    let st1 := if st.prepared then { sq := sqClose st.sq, prepared := false } else st
    let result := match deleteDatabase del with
      | .ok _ => true
      | .error _ => false
    match prepare st1 ioOk with
    | (.ok _, st2) => (.ok result, st2)
    | (.error e, st2) => (.error e, st2)

/-! ## Helper lemmas about `LIKE` matching -/

/-- The pattern `%` alone matches every string. -/
lemma likeMatch_pct (s : Str) : likeMatch ['%'] s = true := by
  induction s with
  | nil => simp [likeMatch, likeAfterStar]
  | cons c s ih =>
    have ih' : likeAfterStar (fun x => List.isEmpty x) s = true := by
      simpa [likeMatch] using ih
    simp [likeMatch, likeAfterStar, ih']

/-- ASCII case folding commutes with reversal. -/
lemma foldCase_reverse (s : Str) : foldCase s.reverse = (foldCase s).reverse := by
  simp [foldCase, List.map_reverse]

/-- Wildcard-freeness is preserved by reversal. -/
lemma wildcardFree_reverse (s : Str) : wildcardFree s.reverse = wildcardFree s := by
  simp [wildcardFree, List.all_reverse]

/-- For a wildcard-free pattern `p`, the `LIKE` pattern `p%` matches `s`
exactly when `p` is an ASCII-case-insensitive prefix of `s`. -/
lemma likeMatch_append_pct (p : Str) (hp : wildcardFree p = true) (s : Str) :
    likeMatch (p ++ ['%']) s = (foldCase p).isPrefixOf (foldCase s) := by
  induction p generalizing s with
  | nil =>
    simp [likeMatch_pct, foldCase, List.isPrefixOf]
  | cons c p ih =>
    have hp' : (¬ c = '%' ∧ ¬ c = '_') ∧ wildcardFree p = true := by
      simpa [wildcardFree, Bool.and_eq_true] using hp
    have hc1 : ¬ c = '%' := hp'.1.1
    have hc2 : ¬ c = '_' := hp'.1.2
    cases s with
    | nil =>
      simp [likeMatch, hc1, foldCase, List.isPrefixOf]
    | cons d s =>
      simp only [List.cons_append, likeMatch, if_neg hc1, if_neg hc2, foldCase,
        List.map_cons, List.isPrefixOf]
      exact congrArg (fun b => (lowerAscii c == lowerAscii d) && b) (ih hp'.2 s)

/-- Reversal turns `isPrefixOf` into `isSuffixOf`. -/
lemma isPrefixOf_reverse_eq (a b : Str) :
    a.reverse.isPrefixOf b.reverse = a.isSuffixOf b := by
  have h : a.reverse <+: b.reverse ↔ a <:+ b :=
    List.reverse_prefix
  have hiffp : a.reverse.isPrefixOf b.reverse = true ↔ a.reverse <+: b.reverse :=
    List.isPrefixOf_iff_prefix
  have hiffs : a.isSuffixOf b = true ↔ a <:+ b :=
    List.isSuffixOf_iff_suffix
  by_cases hs : a <:+ b
  · rw [hiffp.mpr (h.mpr hs), hiffs.mpr hs]
  · have h1 : a.reverse.isPrefixOf b.reverse = false := Bool.eq_false_iff.mpr fun hc =>
      hs (h.mp (hiffp.mp hc))
    have h2 : a.isSuffixOf b = false := Bool.eq_false_iff.mpr fun hc =>
      hs (hiffs.mp hc)
    rw [h1, h2]

/-- The `expression_reverse` column shape produced by
`bulkAdd('terms', ...)`: the code-point reversal for a nonempty
expression, `NULL` for the empty one. -/
def expressionReverseInvariant (r : TermRow) : Prop :=
  r.expressionReverse =
    if r.expression = [] then none else some (reverseString r.expression)

/-- The `reading_reverse` column shape produced by `bulkAdd('terms', ...)`. -/
def readingReverseInvariant (r : TermRow) : Prop :=
  r.readingReverse =
    if r.reading = [] then none else some (reverseString r.reading)

instance (r : TermRow) : Decidable (expressionReverseInvariant r) := by
  unfold expressionReverseInvariant
  infer_instance

instance (r : TermRow) : Decidable (readingReverseInvariant r) := by
  unfold readingReverseInvariant
  infer_instance

/-- On a row whose reverse column satisfies the `bulkAdd` invariant, the
suffix-strategy `LIKE` test selects exactly the rows with a nonempty
expression of which `q` is an ASCII-case-insensitive suffix. -/
lemma likeColumn_suffix_select (q : Str) (hq : wildcardFree q = true) (r : TermRow)
    (hr : expressionReverseInvariant r) :
    likeColumn (reverseString q ++ ['%']) r.expressionReverse =
      (!r.expression.isEmpty && (foldCase q).isSuffixOf (foldCase r.expression)) := by
  rw [expressionReverseInvariant] at hr
  by_cases he : r.expression = []
  · rw [hr, if_pos he, he]
    simp [likeColumn]
  · rw [hr, if_neg he]
    have hemp : r.expression.isEmpty = false := by
      cases hx : r.expression with
      | nil => exact absurd hx he
      | cons a l => simp
    rw [likeColumn, reverseString, reverseString,
      likeMatch_append_pct q.reverse (by rw [wildcardFree_reverse]; exact hq),
      foldCase_reverse, foldCase_reverse, isPrefixOf_reverse_eq, hemp]
    simp

/-- Helper concrete term item used in witnesses. -/
def mkTermItem (dict expr : Str) : DatabaseTermEntry :=
  { expression := expr
    reading := expr
    expressionReverse := none
    readingReverse := none
    definitionTags := none
    tags := none
    rules := []
    score := 0
    glossary := []
    sequence := none
    termTags := none
    dictionary := dict }

/-- C1: For every wildcard-free query `q` (no `%`/`_`) issued against a
`terms` store whose reverse columns satisfy the `bulkAdd` invariant,
`findTermsBulk([q], d, 'suffix')` returns exactly the rows (in store
order) whose expression is nonempty and has `q` as an
ASCII-case-insensitive suffix, filtered by the Dictionary-Set.  For
kana/kanji text the case folding is the identity, so this is exactly
"`q` is a suffix of the expression"; terms inserted with an empty
expression are never returned because their reverse column is `NULL`. -/
theorem findTermsBulk_suffix_amended (st : Db) (q : Str) (d : DictionarySet)
    (hq : wildcardFree q = true)
    (hinv : ∀ r ∈ st.terms, expressionReverseInvariant r) :
    findTermsBulk st [q] d .suffix =
      some ((st.terms.filter fun r =>
        (!r.expression.isEmpty && (foldCase q).isSuffixOf (foldCase r.expression))
          && d r.dictionary).map (termEntryOfRow 0 .suffix)) := by
  have hfil : (st.terms.filter fun r =>
        likeColumn (reverseString q ++ ['%']) r.expressionReverse).filter
        (fun r => d r.dictionary)
      = st.terms.filter fun r =>
        (!r.expression.isEmpty && (foldCase q).isSuffixOf (foldCase r.expression))
          && d r.dictionary := by
    rw [List.filter_filter]
    exact List.filter_congr fun r hr => by
      rw [likeColumn_suffix_select q hq r (hinv r hr), Bool.and_comm]
  simp only [findTermsBulk, List.length_cons, List.length_nil, Nat.zero_add,
    findTermsBulkLoop, termQuery]
  rw [if_neg (by simp)]
  simp [hfil]

/-- C1 counterexample: the claim as stated fails when the query contains
a `LIKE` metacharacter.  With the term `"a"` inserted, the query `"%"`
is not a suffix of `"a"`, yet `findTermsBulk(["%"], set, 'suffix')`
returns the term, because the unescaped reversed query is concatenated
into the `LIKE` pattern (`%%`), which matches every non-NULL reverse
column. -/
theorem findTermsBulk_suffix_claim_counterexample :
    ((findTermsBulk (bulkAdd emptyDb (.terms [mkTermItem ['d'] ['a']]) 0 1)
        [['%']] (fun _ => true) .suffix).map List.length = some 1)
    ∧ ¬ (['%'] : Str) <:+ ['a'] := by
  constructor
  · decide
  · decide

/-- C1 witness: the amended theorem applied to the spec's suffix
scenario (expression `日本語`, query `語`). -/
theorem findTermsBulk_suffix_amended_witness :
    findTermsBulk (bulkAdd emptyDb (.terms [mkTermItem ['d'] ['日', '本', '語']]) 0 1)
        [['語']] (fun _ => true) .suffix =
      some (((bulkAdd emptyDb (.terms [mkTermItem ['d'] ['日', '本', '語']]) 0 1).terms.filter
          fun r =>
        (!r.expression.isEmpty && (foldCase ['語']).isSuffixOf (foldCase r.expression))
          && (fun _ => true) r.dictionary).map (termEntryOfRow 0 .suffix)) :=
  findTermsBulk_suffix_amended
    (bulkAdd emptyDb (.terms [mkTermItem ['d'] ['日', '本', '語']]) 0 1)
    ['語'] (fun _ => true) (by decide) (by decide)

/-- C2 (amended): every term row that `bulkAdd('terms', ...)` adds has
`expressionReverse`/`readingReverse` recomputed code-point-wise from the
item's `expression`/`reading` — `some (reverse s)` for nonempty `s`,
`NULL` for the empty string — so the invariant is preserved for every
row ever stored; and the encoding ignores any
`expressionReverse`/`readingReverse` the input item supplies. -/
theorem bulkAdd_terms_reverse_invariant :
    (∀ (st : Db) (items : List DatabaseTermEntry) (start : Nat) (count : Int),
      (∀ r ∈ st.terms, expressionReverseInvariant r ∧ readingReverseInvariant r) →
      ∀ r ∈ (bulkAdd st (.terms items) start count).terms,
        expressionReverseInvariant r ∧ readingReverseInvariant r)
    ∧ (∀ (id : Nat) (item : DatabaseTermEntry) (v w : Option Str),
        encodeTermRow id { item with expressionReverse := v, readingReverse := w }
          = encodeTermRow id item) := by
  constructor
  · intro st items start count hst r hr
    by_cases hguard : (StoreItems.terms items).size = 0 ∨ count ≤ 0
    · rw [bulkAdd, if_pos hguard] at hr
      exact hst r hr
    · rw [bulkAdd, if_neg hguard] at hr
      rcases List.mem_append.mp hr with h | h
      · exact hst r h
      · rw [appendTermRows] at h
        rcases List.mem_map.mp h with ⟨p, _, rfl⟩
        exact ⟨rfl, rfl⟩
  · intro id item v w
    rfl

/-- C2 counterexample: inserting a term whose expression is the empty
string (even one carrying its own `expressionReverse`) stores `NULL` in
`expression_reverse` — not `reverse("") = ""` — because of the JS
truthiness guard `if (item.expression)`. -/
theorem bulkAdd_terms_reverse_empty_counterexample :
    ((bulkAdd emptyDb
        (.terms [{ mkTermItem ['d'] [] with expressionReverse := some ['x'] }]) 0 1).terms.map
        fun r => r.expressionReverse)
      ≠ ((bulkAdd emptyDb
        (.terms [{ mkTermItem ['d'] [] with expressionReverse := some ['x'] }]) 0 1).terms.map
        fun r => some (reverseString r.expression)) := by
  decide

/-- C2 witness: the invariant theorem applied to one concrete insert. -/
theorem bulkAdd_terms_reverse_invariant_witness :
    expressionReverseInvariant (encodeTermRow 0 (mkTermItem ['d'] ['a']))
      ∧ readingReverseInvariant (encodeTermRow 0 (mkTermItem ['d'] ['a'])) :=
  bulkAdd_terms_reverse_invariant.1 emptyDb [mkTermItem ['d'] ['a']] 0 1
    (by decide) (encodeTermRow 0 (mkTermItem ['d'] ['a'])) (by decide)

/-- C3: part_006's `findTermsBulk` `switch` has no `anywhere` arm, so
for any nonempty input list the query variable stays `undefined` and the
call crashes (modelled as `none`) instead of performing the documented
substring search.  The `MatchType` union, the spec, and the part_003
variant (`LIKE %term%`) all include `anywhere`, so this is a slipped
case, not intended behaviour. -/
theorem findTermsBulk_anywhere_crashes :
    ∀ (st : Db) (termList : List Str) (d : DictionarySet),
      termList ≠ [] → findTermsBulk st termList d .anywhere = none := by
  intro st ts d hts
  cases ts with
  | nil => exact absurd rfl hts
  | cons t rest => simp [findTermsBulk, findTermsBulkLoop, termQuery]

/-- C3 witness: the failing call on a store holding `日本語`. -/
theorem findTermsBulk_anywhere_crashes_witness :
    findTermsBulk (bulkAdd emptyDb (.terms [mkTermItem ['d'] ['日', '本', '語']]) 0 1)
      [['本']] (fun _ => true) .anywhere = none :=
  findTermsBulk_anywhere_crashes _ _ _ (by decide)

/-! ## Dictionary-Set filtering (C4 helpers) -/

lemma findTermsBulkLoop_dict (st : Db) (d : DictionarySet) (mt : MatchType) :
    ∀ (ts : List Str) (i : Nat) (l : List TermEntry),
      findTermsBulkLoop st d mt i ts = some l → ∀ e ∈ l, d e.dictionary = true := by
  intro ts
  induction ts with
  | nil =>
    intro i l h e he
    rw [findTermsBulkLoop] at h
    cases h
    simp at he
  | cons t rest ih =>
    intro i l h e he
    rw [findTermsBulkLoop] at h
    rcases Option.bind_eq_some.mp h with ⟨rows, _, h2⟩
    rcases Option.bind_eq_some.mp h2 with ⟨tail, ht, h3⟩
    have hl : (rows.filter fun r => d r.dictionary).map (termEntryOfRow i mt) ++ tail = l :=
      Option.some_inj.mp h3
    rcases List.mem_append.mp (hl ▸ he) with hme | hme
    · rcases List.mem_map.mp hme with ⟨r, hrf, rfl⟩
      exact (List.mem_filter.mp hrf).2
    · exact ih (i + 1) tail ht e hme

lemma findTermsExactBulkLoop_dict (st : Db) (d : DictionarySet) :
    ∀ (prs : List (Str × Str)) (i : Nat),
      ∀ e ∈ findTermsExactBulkLoop st d i prs, d e.dictionary = true := by
  intro prs
  induction prs with
  | nil => intro i e he; simp [findTermsExactBulkLoop] at he
  | cons p rest ih =>
    intro i e he
    rw [findTermsExactBulkLoop] at he
    rcases List.mem_append.mp he with hme | hme
    · rcases List.mem_map.mp hme with ⟨r, hrf, rfl⟩
      exact (List.mem_filter.mp hrf).2
    · exact ih (i + 1) e hme

lemma findKanjiBulkLoop_dict (st : Db) (d : DictionarySet) :
    ∀ (cs : List Str) (i : Nat),
      ∀ e ∈ findKanjiBulkLoop st d i cs, d e.dictionary = true := by
  intro cs
  induction cs with
  | nil => intro i e he; simp [findKanjiBulkLoop] at he
  | cons c rest ih =>
    intro i e he
    rw [findKanjiBulkLoop] at he
    rcases List.mem_append.mp he with hme | hme
    · rcases List.mem_map.mp hme with ⟨r, hrf, rfl⟩
      exact (List.mem_filter.mp hrf).2
    · exact ih (i + 1) e hme

lemma findTermMetaBulkLoop_dict (st : Db) (d : DictionarySet) :
    ∀ (ts : List Str) (i : Nat),
      ∀ e ∈ findTermMetaBulkLoop st d i ts, d e.dictionary = true := by
  intro ts
  induction ts with
  | nil => intro i e he; simp [findTermMetaBulkLoop] at he
  | cons t rest ih =>
    intro i e he
    rw [findTermMetaBulkLoop] at he
    rcases List.mem_append.mp he with hme | hme
    · rcases List.mem_map.mp hme with ⟨r, hrf, rfl⟩
      exact (List.mem_filter.mp hrf).2
    · exact ih (i + 1) e hme

lemma findKanjiMetaBulkLoop_dict (st : Db) (d : DictionarySet) :
    ∀ (cs : List Str) (i : Nat),
      ∀ e ∈ findKanjiMetaBulkLoop st d i cs, d e.dictionary = true := by
  intro cs
  induction cs with
  | nil => intro i e he; simp [findKanjiMetaBulkLoop] at he
  | cons c rest ih =>
    intro i e he
    rw [findKanjiMetaBulkLoop] at he
    rcases List.mem_append.mp he with hme | hme
    · rcases List.mem_map.mp hme with ⟨r, hrf, rfl⟩
      exact (List.mem_filter.mp hrf).2
    · exact ih (i + 1) e hme

/-- Helper concrete kanji item used in witnesses. -/
def mkKanjiItem (dict ch : Str) : DatabaseKanjiEntry :=
  { character := ch
    onyomi := []
    kunyomi := []
    tags := []
    meanings := []
    dictionary := dict
    stats := none }

/-- C4: every entry returned by the five Dictionary-Set-filtered bulk
find operations has a dictionary accepted by the set (rows failing the
membership test are discarded); and inserting the same expression under
two dictionary names and querying with a set containing only one of
them yields exactly one match. -/
theorem find_ops_dictionary_filter :
    (∀ (st : Db) (ts : List Str) (d : DictionarySet) (mt : MatchType)
        (l : List TermEntry),
      findTermsBulk st ts d mt = some l → ∀ e ∈ l, d e.dictionary = true)
    ∧ (∀ (st : Db) (prs : List (Str × Str)) (d : DictionarySet),
      ∀ e ∈ findTermsExactBulk st prs d, d e.dictionary = true)
    ∧ (∀ (st : Db) (cs : List Str) (d : DictionarySet),
      ∀ e ∈ findKanjiBulk st cs d, d e.dictionary = true)
    ∧ (∀ (st : Db) (ts : List Str) (d : DictionarySet),
      ∀ e ∈ findTermMetaBulk st ts d, d e.dictionary = true)
    ∧ (∀ (st : Db) (cs : List Str) (d : DictionarySet),
      ∀ e ∈ findKanjiMetaBulk st cs d, d e.dictionary = true)
    ∧ ((findTermsBulk
          (bulkAdd emptyDb (.terms [mkTermItem ['1'] ['x'], mkTermItem ['2'] ['x']]) 0 2)
          [['x']] (fun n => n == ['1']) .exact).map List.length = some 1) := by
  refine ⟨?_, ?_, ?_, ?_, ?_, ?_⟩
  · intro st ts d mt l h e he
    by_cases hts : ts.length = 0
    · rw [findTermsBulk, if_pos hts] at h
      cases h
      simp at he
    · rw [findTermsBulk, if_neg hts] at h
      exact findTermsBulkLoop_dict st d mt ts 0 l h e he
  · intro st prs d e he
    exact findTermsExactBulkLoop_dict st d prs 0 e he
  · intro st cs d e he
    exact findKanjiBulkLoop_dict st d cs 0 e he
  · intro st ts d e he
    exact findTermMetaBulkLoop_dict st d ts 0 e he
  · intro st cs d e he
    exact findKanjiMetaBulkLoop_dict st d cs 0 e he
  · decide

/-- C4 witness: the kanji conjunct applied to a concrete store, entry
and nontrivial Dictionary-Set. -/
theorem find_ops_dictionary_filter_witness :
    (fun n => n == (['d'] : Str))
      (kanjiEntryOfRow 0 (encodeKanjiRow (mkKanjiItem ['d'] ['日']))).dictionary = true :=
  find_ops_dictionary_filter.2.2.1
    (bulkAdd emptyDb (.kanji [mkKanjiItem ['d'] ['日']]) 0 1)
    [['日']] (fun n => n == ['d'])
    (kanjiEntryOfRow 0 (encodeKanjiRow (mkKanjiItem ['d'] ['日']))) (by decide)

/-! ## Index preservation (C5 helpers) -/

lemma findKanjiBulkLoop_index (st : Db) (d : DictionarySet) :
    ∀ (cs : List Str) (i : Nat), ∀ e ∈ findKanjiBulkLoop st d i cs,
      ∃ j, j < cs.length ∧ e.index = i + j ∧ cs.get? j = some e.character := by
  intro cs
  induction cs with
  | nil => intro i e he; simp [findKanjiBulkLoop] at he
  | cons c rest ih =>
    intro i e he
    rw [findKanjiBulkLoop] at he
    rcases List.mem_append.mp he with hme | hme
    · rcases List.mem_map.mp hme with ⟨r, hrf, rfl⟩
      have hc : r.character = c := by
        simpa using (List.mem_filter.mp (List.mem_filter.mp hrf).1).2
      exact ⟨0, by simp, by simp [kanjiEntryOfRow], by simp [kanjiEntryOfRow, hc]⟩
    · rcases ih (i + 1) e hme with ⟨j, hj, hidx, hget⟩
      exact ⟨j + 1, by simpa using Nat.succ_lt_succ hj, by omega, by simpa using hget⟩

lemma findTermsBulkLoop_index (st : Db) (d : DictionarySet) (mt : MatchType) :
    ∀ (ts : List Str) (i : Nat) (l : List TermEntry),
      findTermsBulkLoop st d mt i ts = some l → ∀ e ∈ l,
      ∃ j, j < ts.length ∧ e.index = i + j
        ∧ (mt = .exact → ts.get? j = some e.term) := by
  intro ts
  induction ts with
  | nil =>
    intro i l h e he
    rw [findTermsBulkLoop] at h
    cases h
    simp at he
  | cons t rest ih =>
    intro i l h e he
    rw [findTermsBulkLoop] at h
    rcases Option.bind_eq_some.mp h with ⟨rows, hq, h2⟩
    rcases Option.bind_eq_some.mp h2 with ⟨tail, ht, h3⟩
    have hl : (rows.filter fun r => d r.dictionary).map (termEntryOfRow i mt) ++ tail = l :=
      Option.some_inj.mp h3
    rcases List.mem_append.mp (hl ▸ he) with hme | hme
    · rcases List.mem_map.mp hme with ⟨r, hrf, rfl⟩
      refine ⟨0, by simp, by simp [termEntryOfRow], ?_⟩
      intro hmt
      subst hmt
      rw [termQuery] at hq
      have hrows := Option.some_inj.mp hq
      have hr1 : r ∈ st.terms.filter fun rr => rr.expression == t :=
        hrows ▸ (List.mem_filter.mp hrf).1
      have hre : r.expression = t := by simpa using (List.mem_filter.mp hr1).2
      simp [termEntryOfRow, hre]
    · rcases ih (i + 1) tail ht e hme with ⟨j, hj, hidx, hget⟩
      refine ⟨j + 1, by simpa using Nat.succ_lt_succ hj, by omega, ?_⟩
      intro hmt
      simpa using hget hmt

lemma findTermsExactBulkLoop_index (st : Db) (d : DictionarySet) :
    ∀ (prs : List (Str × Str)) (i : Nat),
      ∀ e ∈ findTermsExactBulkLoop st d i prs,
      ∃ j, j < prs.length ∧ e.index = i + j
        ∧ ∃ p, prs.get? j = some p ∧ e.term = p.1 ∧ e.reading = p.2 := by
  intro prs
  induction prs with
  | nil => intro i e he; simp [findTermsExactBulkLoop] at he
  | cons p rest ih =>
    intro i e he
    rw [findTermsExactBulkLoop] at he
    rcases List.mem_append.mp he with hme | hme
    · rcases List.mem_map.mp hme with ⟨r, hrf, rfl⟩
      have hpair : (r.expression == p.1 && (r.reading == p.2)) = true :=
        (List.mem_filter.mp (List.mem_filter.mp hrf).1).2
      have h12 : r.expression = p.1 ∧ r.reading = p.2 := by simpa using hpair
      have h1 : r.expression = p.1 := h12.1
      have h2 : r.reading = p.2 := h12.2
      exact ⟨0, by simp, by simp [termEntryOfRow],
        p, by simp, by simp [termEntryOfRow, h1], by simp [termEntryOfRow, h2]⟩
    · rcases ih (i + 1) e hme with ⟨j, hj, hidx, q, hq, h1, h2⟩
      exact ⟨j + 1, by simpa using Nat.succ_lt_succ hj, by omega, q, by simpa using hq, h1, h2⟩

lemma findTermMetaBulkLoop_index (st : Db) (d : DictionarySet) :
    ∀ (ts : List Str) (i : Nat),
      ∀ e ∈ findTermMetaBulkLoop st d i ts,
      ∃ j, j < ts.length ∧ e.index = i + j ∧ ts.get? j = some e.term := by
  intro ts
  induction ts with
  | nil => intro i e he; simp [findTermMetaBulkLoop] at he
  | cons t rest ih =>
    intro i e he
    rw [findTermMetaBulkLoop] at he
    rcases List.mem_append.mp he with hme | hme
    · rcases List.mem_map.mp hme with ⟨r, hrf, rfl⟩
      have hc : r.term = t := by
        simpa using (List.mem_filter.mp (List.mem_filter.mp hrf).1).2
      exact ⟨0, by simp, by simp, by simp [hc]⟩
    · rcases ih (i + 1) e hme with ⟨j, hj, hidx, hget⟩
      exact ⟨j + 1, by simpa using Nat.succ_lt_succ hj, by omega, by simpa using hget⟩

lemma findKanjiMetaBulkLoop_index (st : Db) (d : DictionarySet) :
    ∀ (cs : List Str) (i : Nat),
      ∀ e ∈ findKanjiMetaBulkLoop st d i cs,
      ∃ j, j < cs.length ∧ e.index = i + j ∧ cs.get? j = some e.character := by
  intro cs
  induction cs with
  | nil => intro i e he; simp [findKanjiMetaBulkLoop] at he
  | cons c rest ih =>
    intro i e he
    rw [findKanjiMetaBulkLoop] at he
    rcases List.mem_append.mp he with hme | hme
    · rcases List.mem_map.mp hme with ⟨r, hrf, rfl⟩
      have hc : r.character = c := by
        simpa using (List.mem_filter.mp (List.mem_filter.mp hrf).1).2
      exact ⟨0, by simp, by simp, by simp [hc]⟩
    · rcases ih (i + 1) e hme with ⟨j, hj, hidx, hget⟩
      exact ⟨j + 1, by simpa using Nat.succ_lt_succ hj, by omega, by simpa using hget⟩

/-- C5: every entry returned by a bulk find operation carries the
0-based position of the input element that produced it — for whatever
row order the backing store holds — and for the exact-key operations
the input element at that position is the entry's own key. -/
theorem find_ops_index_preservation :
    (∀ (st : Db) (cs : List Str) (d : DictionarySet),
      ∀ e ∈ findKanjiBulk st cs d,
        e.index < cs.length ∧ cs.get? e.index = some e.character)
    ∧ (∀ (st : Db) (ts : List Str) (d : DictionarySet) (mt : MatchType)
        (l : List TermEntry),
      findTermsBulk st ts d mt = some l → ∀ e ∈ l,
        e.index < ts.length ∧ (mt = .exact → ts.get? e.index = some e.term))
    ∧ (∀ (st : Db) (prs : List (Str × Str)) (d : DictionarySet),
      ∀ e ∈ findTermsExactBulk st prs d, e.index < prs.length
        ∧ ∃ p, prs.get? e.index = some p ∧ e.term = p.1 ∧ e.reading = p.2)
    ∧ (∀ (st : Db) (ts : List Str) (d : DictionarySet),
      ∀ e ∈ findTermMetaBulk st ts d,
        e.index < ts.length ∧ ts.get? e.index = some e.term)
    ∧ (∀ (st : Db) (cs : List Str) (d : DictionarySet),
      ∀ e ∈ findKanjiMetaBulk st cs d,
        e.index < cs.length ∧ cs.get? e.index = some e.character) := by
  refine ⟨?_, ?_, ?_, ?_, ?_⟩
  · intro st cs d e he
    rcases findKanjiBulkLoop_index st d cs 0 e he with ⟨j, hj, hidx, hget⟩
    have hj' : e.index = j := by omega
    exact ⟨hj' ▸ hj, hj' ▸ hget⟩
  · intro st ts d mt l h e he
    by_cases hts : ts.length = 0
    · rw [findTermsBulk, if_pos hts] at h
      cases h
      simp at he
    · rw [findTermsBulk, if_neg hts] at h
      rcases findTermsBulkLoop_index st d mt ts 0 l h e he with ⟨j, hj, hidx, hget⟩
      have hj' : e.index = j := by omega
      exact ⟨hj' ▸ hj, fun hmt => hj' ▸ hget hmt⟩
  · intro st prs d e he
    rcases findTermsExactBulkLoop_index st d prs 0 e he with ⟨j, hj, hidx, q, hq, h1, h2⟩
    have hj' : e.index = j := by omega
    exact ⟨hj' ▸ hj, q, hj' ▸ hq, h1, h2⟩
  · intro st ts d e he
    rcases findTermMetaBulkLoop_index st d ts 0 e he with ⟨j, hj, hidx, hget⟩
    have hj' : e.index = j := by omega
    exact ⟨hj' ▸ hj, hj' ▸ hget⟩
  · intro st cs d e he
    rcases findKanjiMetaBulkLoop_index st d cs 0 e he with ⟨j, hj, hidx, hget⟩
    have hj' : e.index = j := by omega
    exact ⟨hj' ▸ hj, hj' ▸ hget⟩

/-- C5 witness: the spec's example `findKanjiBulk(["日","語"], set)`,
with the two kanji deliberately stored in the opposite order; the entry
produced for `語` carries index 1. -/
theorem find_ops_index_preservation_witness :
    (kanjiEntryOfRow 1 (encodeKanjiRow (mkKanjiItem ['d'] ['語']))).index
        < ([['日'], ['語']] : List Str).length
      ∧ ([['日'], ['語']] : List Str).get?
          (kanjiEntryOfRow 1 (encodeKanjiRow (mkKanjiItem ['d'] ['語']))).index
        = some (kanjiEntryOfRow 1 (encodeKanjiRow (mkKanjiItem ['d'] ['語']))).character :=
  find_ops_index_preservation.1
    (bulkAdd emptyDb (.kanji [mkKanjiItem ['d'] ['語'], mkKanjiItem ['d'] ['日']]) 0 2)
    [['日'], ['語']] (fun _ => true)
    (kanjiEntryOfRow 1 (encodeKanjiRow (mkKanjiItem ['d'] ['語']))) (by decide)

/-! ## `bulkAdd` slice semantics (C6) -/

lemma sliceItems_get {α : Type} (l : List α) (start : Nat) (count : Int) (k : Nat) :
    (sliceItems l start count).get? k =
      if start + k < min (start + count.toNat) l.length then l.get? (start + k)
      else none := by
  unfold sliceItems
  by_cases h : start + k < min (start + count.toNat) l.length
  · rw [if_pos h, List.get?_drop, List.get?_take (by omega)]
  · rw [if_neg h]
    refine List.get?_eq_none.mpr ?_
    simp only [List.length_drop, List.length_take]
    omega

/-- C6: `bulkAdd` is a no-op when `items` is empty or `count <= 0`;
otherwise each store receives exactly the encodings of the sub-slice
`[start, min(start + count, items.length))` of its item list, appended
in slice order; the third conjunct characterises the sub-slice
element-by-element, so items outside it are never inserted. -/
theorem bulkAdd_slice_semantics :
    (∀ (st : Db) (its : StoreItems) (start : Nat) (count : Int),
      its.size = 0 ∨ count ≤ 0 → bulkAdd st its start count = st)
    ∧ (∀ (α : Type) (l : List α) (start : Nat) (count : Int) (k : Nat),
      (sliceItems l start count).get? k =
        if start + k < min (start + count.toNat) l.length then l.get? (start + k)
        else none)
    ∧ (∀ (st : Db) (l : List Summary) (start : Nat) (count : Int), 0 < count →
      (bulkAdd st (.dictionaries l) start count).dictionaries
        = st.dictionaries ++ (sliceItems l start count).map encodeDictionaryRow)
    ∧ (∀ (st : Db) (l : List DatabaseTermEntry) (start : Nat) (count : Int), 0 < count →
      (bulkAdd st (.terms l) start count).terms
        = st.terms ++ appendTermRows st.terms.length (sliceItems l start count))
    ∧ (∀ (st : Db) (l : List DatabaseTermMeta) (start : Nat) (count : Int), 0 < count →
      (bulkAdd st (.termMeta l) start count).termMeta
        = st.termMeta ++ (sliceItems l start count).map encodeTermMetaRow)
    ∧ (∀ (st : Db) (l : List DatabaseKanjiEntry) (start : Nat) (count : Int), 0 < count →
      (bulkAdd st (.kanji l) start count).kanji
        = st.kanji ++ (sliceItems l start count).map encodeKanjiRow)
    ∧ (∀ (st : Db) (l : List DatabaseKanjiMeta) (start : Nat) (count : Int), 0 < count →
      (bulkAdd st (.kanjiMeta l) start count).kanjiMeta
        = st.kanjiMeta ++ (sliceItems l start count).map encodeKanjiMetaRow)
    ∧ (∀ (st : Db) (l : List TagItem) (start : Nat) (count : Int), 0 < count →
      (bulkAdd st (.tagMeta l) start count).tagMeta
        = st.tagMeta ++ (sliceItems l start count).map encodeTagMetaRow)
    ∧ (∀ (st : Db) (l : List MediaItem) (start : Nat) (count : Int), 0 < count →
      (bulkAdd st (.media l) start count).media
        = st.media ++ (sliceItems l start count).map encodeMediaRow) := by
  refine ⟨?_, fun α => sliceItems_get, ?_, ?_, ?_, ?_, ?_, ?_, ?_⟩
  · intro st its start count hguard
    rw [bulkAdd.eq_def, if_pos hguard]
  all_goals
    intro st l start count hc
    by_cases hl : l = []
  all_goals first
    | (subst hl
       simp [bulkAdd.eq_def, sliceItems, StoreItems.size, appendTermRows])
    | (rw [bulkAdd.eq_def, if_neg (by
        rintro (h0 | hle)
        · exact hl (List.length_eq_zero.mp h0)
        · omega)])

/-- C6 witness: the no-op guard on an empty item list, and a positive
insert taking the middle one-element sub-slice of a three-element kanji
batch. -/
theorem bulkAdd_slice_semantics_witness :
    bulkAdd emptyDb (.terms []) 0 5 = emptyDb
      ∧ (bulkAdd emptyDb
          (.kanji [mkKanjiItem ['d'] ['日'], mkKanjiItem ['d'] ['語'], mkKanjiItem ['d'] ['本']])
          1 1).kanji
        = emptyDb.kanji
          ++ (sliceItems
              [mkKanjiItem ['d'] ['日'], mkKanjiItem ['d'] ['語'], mkKanjiItem ['d'] ['本']]
              1 1).map encodeKanjiRow :=
  ⟨bulkAdd_slice_semantics.1 emptyDb (.terms []) 0 5 (Or.inl rfl),
   bulkAdd_slice_semantics.2.2.2.2.2.1 emptyDb
     [mkKanjiItem ['d'] ['日'], mkKanjiItem ['d'] ['語'], mkKanjiItem ['d'] ['本']]
     1 1 (by decide)⟩

/-! ## `getDictionaryCounts` (C7) -/

lemma foldl_addCountGroup (l : List DictionaryCountGroup) :
    ∀ z : DictionaryCountGroup,
      l.foldl addCountGroup z =
        { terms := z.terms + (l.map DictionaryCountGroup.terms).sum
          kanji := z.kanji + (l.map DictionaryCountGroup.kanji).sum
          termMeta := z.termMeta + (l.map DictionaryCountGroup.termMeta).sum
          kanjiMeta := z.kanjiMeta + (l.map DictionaryCountGroup.kanjiMeta).sum
          tagMeta := z.tagMeta + (l.map DictionaryCountGroup.tagMeta).sum
          media := z.media + (l.map DictionaryCountGroup.media).sum } := by
  induction l with
  | nil => intro z; simp
  | cons g l ih =>
    intro z
    rw [List.foldl_cons, ih]
    simp [addCountGroup, Nat.add_assoc]

/-- Concrete store for the spec scenario of C7: three terms and two
kanji inserted under dictionary `"D"`. -/
def stCounts : Db :=
  bulkAdd
    (bulkAdd emptyDb
      (.terms [mkTermItem ['D'] ['a'], mkTermItem ['D'] ['b'], mkTermItem ['D'] ['c']])
      0 3)
    (.kanji [mkKanjiItem ['D'] ['日'], mkKanjiItem ['D'] ['語']]) 0 2

/-- C7: `getDictionaryCounts(names, true)` returns one six-store count
group per requested name, in order, plus a total equal to the
element-wise sum of those groups over a zero-initialized group — so for
an empty request the total still carries all six store keys, each zero —
and the spec's 3-terms/2-kanji scenario yields `{terms: 3, kanji: 2}`
with an equal total. -/
theorem getDictionaryCounts_total_sum :
    (∀ (st : Db) (names : List Str),
      (getDictionaryCounts st names true).counts = names.map (countGroupFor st)
      ∧ ∃ t, (getDictionaryCounts st names true).total = some t
        ∧ t.terms = (names.map fun n => (countGroupFor st n).terms).sum
        ∧ t.kanji = (names.map fun n => (countGroupFor st n).kanji).sum
        ∧ t.termMeta = (names.map fun n => (countGroupFor st n).termMeta).sum
        ∧ t.kanjiMeta = (names.map fun n => (countGroupFor st n).kanjiMeta).sum
        ∧ t.tagMeta = (names.map fun n => (countGroupFor st n).tagMeta).sum
        ∧ t.media = (names.map fun n => (countGroupFor st n).media).sum)
    ∧ (∀ st : Db, getDictionaryCounts st [] true
        = { total := some zeroCountGroup, counts := [] })
    ∧ getDictionaryCounts stCounts [['D']] true
        = { total := some ⟨3, 2, 0, 0, 0, 0⟩, counts := [⟨3, 2, 0, 0, 0, 0⟩] } := by
  refine ⟨?_, ?_, ?_⟩
  · intro st names
    refine ⟨rfl, _, rfl, ?_, ?_, ?_, ?_, ?_, ?_⟩
    all_goals
      rw [foldl_addCountGroup]
      simp [zeroCountGroup, List.map_map, Function.comp_def]
  · intro st
    rfl
  · decide

/-! ## `getDictionaryInfo` round trip (C8) -/

/-- C8 (amended): a dictionary summary inserted by
`bulkAdd('dictionaries', [d], 0, 1)` is decoded back by
`getDictionaryInfo()` with every field of its public shape restored —
the 0/1-encoded booleans re-materialized, the serialized counts map
decoded to an equal map, `revision`/`styles` returned unchanged —
except that the source-tool version tag (`yomitanVersion`) is dropped by
the insert (the part_006 insert lists no value for the column) and comes
back absent. -/
theorem getDictionaryInfo_roundtrip_amended (st : Db) (item : Summary) :
    getDictionaryInfo (bulkAdd st (.dictionaries [item]) 0 1)
      = getDictionaryInfo st
        ++ [{ title := item.title
              version := item.version
              revision := item.revision
              sequenced := item.sequenced
              author := item.author
              url := item.url
              description := item.description
              attribution := item.attribution
              frequencyMode := item.frequencyMode
              prefixWildcardsSupported := item.prefixWildcardsSupported
              styles := item.styles
              counts := item.counts
              yomitanVersion := none }] := by
  rw [bulkAdd.eq_def, if_neg (by
    rintro (h0 | hle)
    · simp [StoreItems.size] at h0
    · omega)]
  show (st.dictionaries ++ (sliceItems [item] 0 1).map encodeDictionaryRow).map
      decodeDictionaryRow = _
  rw [List.map_append]
  cases hsq : item.sequenced <;> cases hpw : item.prefixWildcardsSupported <;>
    simp [sliceItems, decodeDictionaryRow, encodeDictionaryRow, getDictionaryInfo, hsq, hpw]

/-- Concrete summary used in the C8 counterexample. -/
def dSummary : Summary :=
  { title := ['t']
    version := 1
    revision := ['r']
    sequenced := true
    author := none
    url := none
    description := none
    attribution := none
    frequencyMode := none
    prefixWildcardsSupported := true
    styles := []
    counts := some [(['x'], 2)]
    yomitanVersion := ['1'] }

/-- C8 counterexample: the source-tool version tag is not returned
unchanged — the inserted summary carries `yomitanVersion = "1"` but the
decoded entry's `yomitanVersion` is absent (`NULL` column). -/
theorem getDictionaryInfo_yomitanVersion_counterexample :
    ((getDictionaryInfo (bulkAdd emptyDb (.dictionaries [dSummary]) 0 1)).map
        fun e => e.yomitanVersion)
      ≠ [some dSummary.yomitanVersion] := by
  decide

/-! ## `purge` and the open/opening lifecycle (C9, C10) -/

/-- C9: `purge()` fails with `CannotPurgeWhileOpening` exactly when the
connection manager is mid-open; otherwise (from a consistent engine
state, with the re-open succeeding) it closes if open, reports a
deletion failure only through an `ok false` result rather than a fault,
always re-prepares so the engine ends prepared (handle held, not
opening, ready flag set), and returns true iff deletion succeeded — a
file-not-found during deletion counting as success. -/
theorem purge_semantics :
    (∀ (st : EngineState) (del : DeleteOutcome) (ioOk : Bool),
      st.sq.isOpening = true →
        purge st del ioOk = (.error .cannotPurgeWhileOpening, st))
    ∧ (∀ (st : EngineState) (del : DeleteOutcome) (ioOk : Bool),
      st.sq.isOpening = false → st.sq.client = st.prepared → ioOk = true →
        purge st del ioOk
          = (.ok (del != DeleteOutcome.failure), ⟨⟨true, false⟩, true⟩))
    ∧ deleteDatabase .notFound = .ok () := by
  refine ⟨?_, ?_, rfl⟩
  · intro st del ioOk h
    simp [purge, h]
  · intro st del ioOk h1 h2 h3
    subst h3
    obtain ⟨⟨cl, op⟩, pr⟩ := st
    simp only at h1 h2
    subst h1
    subst h2
    cases cl <;> cases del <;> rfl

/-- C9 witness: purging a fresh closed engine whose backing file does
not exist succeeds and leaves the engine prepared. -/
theorem purge_semantics_witness :
    purge ⟨⟨false, false⟩, false⟩ DeleteOutcome.notFound true
      = (.ok true, ⟨⟨true, false⟩, true⟩) :=
  purge_semantics.2.1 ⟨⟨false, false⟩, false⟩ .notFound true rfl rfl rfl

/-- C10: whenever `open` is entered with no open already in flight, the
`finally` block guarantees that after the call completes — whether it
returns, is rejected by the `AlreadyOpen` guard, or fails in the body —
`isOpening()` is false again, and a subsequent `open()` attempt is never
rejected with `AlreadyOpening`. -/
theorem sqOpen_clears_isOpening :
    ∀ (st : SqState) (io io2 : Bool), st.isOpening = false →
      (sqOpen st io).2.isOpening = false
        ∧ (sqOpen (sqOpen st io).2 io2).1 ≠ .error .alreadyOpening := by
  intro st io io2 h
  obtain ⟨cl, op⟩ := st
  simp only at h
  subst h
  cases cl <;> cases io <;> cases io2 <;> simp [sqOpen]

/-- C10 witness: a first open that fails in its body (I/O failure)
leaves `isOpening` false, and the retry is not rejected with
`AlreadyOpening`. -/
theorem sqOpen_clears_isOpening_witness :
    (sqOpen ⟨false, false⟩ false).2.isOpening = false
      ∧ (sqOpen (sqOpen ⟨false, false⟩ false).2 true).1 ≠ .error .alreadyOpening :=
  sqOpen_clears_isOpening ⟨false, false⟩ false true rfl

end Yomitan
